import Mathlib

/-!
Shallow embedding of `pyCellProfiler/cellprofiler/modules/loadsingleimage.py`
(the `LoadSingleImage` CellProfiler module), together with theorems checking
the module's natural-language specification against the code.

Python strings are modelled as `List Char`; the Python dictionary built by
`get_file_names` is modelled as an insertion-ordered association list with
Python assignment semantics (assignment to a present key updates the value in
place, otherwise the pair is appended).  The host framework objects that the
module merely reads (`workspace.measurements.apply_metadata`, the preference
directories, `os.sep`/`os.altsep`) are modelled as parameters.
-/

namespace LoadSingleImageMod

/-- Python strings, modelled as lists of characters. -/
abbrev PyStr := List Char

/-- The three options of the `dir_choice` setting:
`DIR_DEFAULT_IMAGE_FOLDER`, `DIR_DEFAULT_OUTPUT_FOLDER`, `DIR_CUSTOM_FOLDER`. -/
inductive DirChoice where
  | defaultImageFolder
  | defaultOutputFolder
  | customFolder
deriving DecidableEq, Repr

/-- One entry of `self.file_settings`: the dictionary built by `add_file`,
holding `FD_KEY` (a fresh `uuid.uuid1()`, modelled as a `Nat`), the value of
the `FD_FILE_NAME` text setting and the value of the `FD_IMAGE_NAME`
file-image-name setting.  The `FD_REMOVE_BUTTON` entry is a UI callback
carrying no state beyond the key and is not part of the data model. -/
structure FileSetting where
  key : Nat
  file_name : PyStr
  image_name : PyStr
deriving DecidableEq, Repr

/-- The state of a `LoadSingleImage` module instance: the `dir_choice` and
`custom_directory` settings created by `create_settings`, the
`file_settings` list, and a counter modelling the stream of fresh
`uuid.uuid1()` keys (every key handed out so far is below `next_key`). -/
structure Module where
  dir_choice : DirChoice
  custom_directory : PyStr
  file_settings : List FileSetting
  next_key : Nat
deriving DecidableEq, Repr

/-- Default value of the `FD_FILE_NAME` setting created by `add_file`. -/
def defaultFileName : PyStr := "None".toList

/-- Default value of the `FD_IMAGE_NAME` setting created by `add_file`. -/
def defaultImageName : PyStr := "OrigBlue".toList

/-- Python `add_file`: append one new file-settings dictionary, keyed by a fresh
uuid, to the end of `self.file_settings`. -/
def add_file (m : Module) : Module :=
  { m with
    file_settings := m.file_settings ++
      [{ key := m.next_key
         file_name := defaultFileName
         image_name := defaultImageName }]
    next_key := m.next_key + 1 }

/-- Python `create_settings`: `dir_choice` starts at the first choice
(`DIR_DEFAULT_IMAGE_FOLDER`), `custom_directory` starts at `"."`, and one
file entry is added by the initial `add_file` call. -/
def create_settings : Module :=
  add_file
    { dir_choice := DirChoice.defaultImageFolder
      custom_directory := ".".toList
      file_settings := []
      next_key := 0 }

/-- Python `[d[FD_KEY] for d in self.file_settings].index(key)` followed by
`del self.file_settings[index]`: remove the first entry whose key matches.
`none` models the `ValueError` that `list.index` raises when no entry
matches. -/
def removeFirstKey (key : Nat) : List FileSetting → Option (List FileSetting)
  | [] => none
  | d :: ds =>
    if d.key = key then some ds
    else (removeFirstKey key ds).map (fun rest => d :: rest)

/-- Python `remove_file(key)`. -/
def remove_file (m : Module) (key : Nat) : Option Module :=
  (removeFirstKey key m.file_settings).map
    (fun fs => { m with file_settings := fs })

/-- A serialized setting, as returned by `settings()`:  the `cps.Choice`
directory choice, a `cps.Text` value, or a `cps.FileImageNameProvider`
value. -/
inductive Setting where
  | choice (c : DirChoice)
  | text (s : PyStr)
  | fileImageName (s : PyStr)
deriving DecidableEq, Repr

/-- Python `settings()`: the directory choice, the custom directory, then one
(file name, image name) pair per file entry, in list order. -/
def settings (m : Module) : List Setting :=
  [Setting.choice m.dir_choice, Setting.text m.custom_directory] ++
    m.file_settings.flatMap
      (fun fs => [Setting.text fs.file_name, Setting.fileImageName fs.image_name])

/-- The first `while` loop of `prepare_settings`: while the list is longer
than `count`, `remove_file(self.file_settings[0][FD_KEY])`, which deletes the
head entry (index 0 is always the first occurrence of its own key). -/
def removeWhileLong (count : Nat) : List FileSetting → List FileSetting
  | [] => []
  | d :: ds =>
    if count < ds.length + 1 then removeWhileLong count ds else d :: ds

/-- Iterating `n` times of the second `while` loop of `prepare_settings`
(`self.add_file()`). -/
def addTimes : Nat → Module → Module
  | 0, m => m
  | n + 1, m => addTimes n (add_file m)

/-- Python `prepare_settings(setting_values)`: set the number of file entries to
`(len(setting_values)-2)/2` (Python 2 floor division, hence `Int.fdiv`).
When the computed count is negative Python raises `IndexError` inside the
removal loop once the list is empty; that error state is modelled by the
removal loop stopping at the empty list. -/
def prepare_settings (m : Module) (setting_values : List PyStr) : Module :=
  let countI : Int := Int.fdiv ((setting_values.length : Int) - 2) 2
  let count : Nat := countI.toNat
  let m1 : Module := { m with file_settings := removeWhileLong count m.file_settings }
  addTimes (count - m1.file_settings.length) m1

/-- The preference directories read through `cellprofiler.preferences`. -/
structure Prefs where
  default_image_directory : PyStr
  default_output_directory : PyStr
deriving DecidableEq, Repr

/-- Python `os.sep` and `os.altsep` (`altsep` is `None` on posix). -/
structure OsConfig where
  sep : Char
  altsep : Option Char
deriving DecidableEq, Repr

/-- Python `os.path.join(a, b)` for a one-level join: `b` if `b` is absolute,
otherwise `a` and `b` glued with a separator unless `a` is empty or already
ends with one. -/
def path_join (sep : Char) (a b : PyStr) : PyStr :=
  if b.head? = some sep then b
  else if a = [] then b
  else if a.getLast? = some sep then a ++ b
  else a ++ [sep] ++ b

/-- Python `base_directory[:2] == c + os.sep or (os.altsep and
base_directory[:2] == c + os.altsep)`. -/
def startsWithCharSep (os : OsConfig) (c : Char) (s : PyStr) : Bool :=
  s.take 2 = [c, os.sep] ||
    (match os.altsep with
     | some a => s.take 2 = [c, a]
     | none => false)

/-- Python `get_base_directory()`. -/
def get_base_directory (os : OsConfig) (prefs : Prefs) (m : Module) : PyStr :=
  match m.dir_choice with
  | DirChoice.defaultImageFolder => prefs.default_image_directory
  | DirChoice.defaultOutputFolder => prefs.default_output_directory
  | DirChoice.customFolder =>
    let base := m.custom_directory
    if startsWithCharSep os '.' base then
      path_join os.sep prefs.default_image_directory (base.take 2)
    else if startsWithCharSep os '&' base then
      path_join os.sep prefs.default_output_directory (base.take 2)
    else base

/-- A Python dictionary over string keys and values, modelled as an
insertion-ordered association list. -/
abbrev PyDict := List (PyStr × PyStr)

/-- Python `d[k] = v`: update in place if the key is present, else append. -/
def dictSet (d : PyDict) (k v : PyStr) : PyDict :=
  match d with
  | [] => [(k, v)]
  | (k', v') :: rest =>
    if k' = k then (k, v) :: rest else (k', v') :: dictSet rest k v

/-- Python `d[k]` and `k in d`. -/
def dictFind (d : PyDict) (k : PyStr) : Option PyStr :=
  match d with
  | [] => none
  | (k', v') :: rest => if k' = k then some v' else dictFind rest k

/-- Python `workspace.measurements`: the module only calls `apply_metadata` and
reads `image_set_number`; both are supplied by the host framework. -/
structure Measurements where
  apply_metadata : PyStr → PyStr
  image_set_number : Nat

/-- A lazy image provider, `LoadImagesImageProvider(name, pathname, filename)`
from `loadimages.py`. -/
structure Provider where
  name : PyStr
  pathname : PyStr
  filename : PyStr
deriving DecidableEq, Repr

/-- Python `workspace.image_set`: the provider registry the module appends to, plus
`rest`, abstracting every other component of the image set (images already
computed, numbering, ...), which this module never touches. -/
structure ImageSet where
  providers : List Provider
  rest : Nat
deriving DecidableEq, Repr

/-- The workspace handed to `run`: measurements, the image set, and whether
a UI frame is present (`workspace.frame`). -/
structure Workspace where
  measurements : Measurements
  image_set : ImageSet
  frame : Bool

/-- Python `get_file_names(workspace)`: one dictionary assignment
`result[image_name] = apply_metadata(file_pattern)` per file entry, in list
order. -/
def get_file_names (m : Module) (ws : Workspace) : PyDict :=
  m.file_settings.foldl
    (fun result fs =>
      dictSet result fs.image_name (ws.measurements.apply_metadata fs.file_name))
    []

/-- Python `run(workspace)`: compute the file-name dictionary and the base
directory, and append one `LoadImagesImageProvider(image_name, root,
dict[image_name])` per dictionary entry to `workspace.image_set.providers`.
The remaining statements build the `statistics` table and display it in the
UI frame; they write to no workspace state modelled here. -/
def run (os : OsConfig) (prefs : Prefs) (m : Module) (ws : Workspace) : Workspace :=
  let d := get_file_names m ws
  let root := get_base_directory os prefs m
  { ws with
    image_set :=
      { ws.image_set with
        providers := ws.image_set.providers ++
          d.map (fun kv => { name := kv.1, pathname := root, filename := kv.2 }) } }

/-- Modelled from the spec: the host pipeline engine's scheduling of this
module is not part of this file.  The spec states that the module registers
its providers "on the first pipeline cycle" and that the images are exposed
"to all later cycles without reloading", so the engine invokes the module's
`run` only on cycle 1 and leaves the image-set registry alone on later
cycles. -/
def cycleStep (os : OsConfig) (prefs : Prefs) (m : Module) (cycle : Nat)
    (ws : Workspace) : Workspace :=
  if cycle = 1 then run os prefs m ws else ws

/-- The workspace after pipeline cycles `1, ..., n`. -/
def runCycles (os : OsConfig) (prefs : Prefs) (m : Module) :
    Nat → Workspace → Workspace
  | 0, ws => ws
  | n + 1, ws => cycleStep os prefs m (n + 1) (runCycles os prefs m n ws)

/-! Concrete sample states used by witnesses and counterexamples. -/

/-- Posix `os` configuration: `os.sep = '/'`, `os.altsep = None`. -/
def osA : OsConfig := { sep := '/', altsep := none }

/-- Sample preference directories. -/
def prefsA : Prefs :=
  { default_image_directory := "/in".toList
    default_output_directory := "/out".toList }

/-- A module instance with two file entries and a custom folder. -/
def mA : Module :=
  { dir_choice := DirChoice.customFolder
    custom_directory := "/base".toList
    file_settings :=
      [{ key := 0, file_name := "f1".toList, image_name := "imgA".toList },
       { key := 1, file_name := "f2".toList, image_name := "imgB".toList }]
    next_key := 2 }

/-- A module instance whose two file entries share one image name. -/
def mDup : Module :=
  { dir_choice := DirChoice.defaultImageFolder
    custom_directory := ".".toList
    file_settings :=
      [{ key := 0, file_name := "f1".toList, image_name := "img".toList },
       { key := 1, file_name := "f2".toList, image_name := "img".toList }]
    next_key := 2 }

/-- A workspace whose metadata substitution is the identity. -/
def wsA : Workspace :=
  { measurements := { apply_metadata := fun s => s, image_set_number := 0 }
    image_set := { providers := [], rest := 7 }
    frame := false }

/-! Helper lemmas. -/

lemma flatPairs_length (fs : List FileSetting) :
    (fs.flatMap
      (fun f => [Setting.text f.file_name, Setting.fileImageName f.image_name])).length
      = 2 * fs.length := by
  induction fs with
  | nil => simp
  | cons d ds ih => simp [ih]; ring

lemma settings_length (m : Module) :
    (settings m).length = 2 + 2 * m.file_settings.length := by
  have h := flatPairs_length m.file_settings
  simp only [settings, List.length_append, List.length_cons, List.length_nil] at *
  omega

lemma removeFirstKey_append (k : Nat) (pre : List FileSetting) (e : FileSetting)
    (post : List FileSetting) (hk : e.key = k)
    (hpre : ∀ fs ∈ pre, fs.key ≠ k) :
    removeFirstKey k (pre ++ e :: post) = some (pre ++ post) := by
  induction pre with
  | nil => simp [removeFirstKey, hk]
  | cons d ds ih =>
    have hd : d.key ≠ k := hpre d (List.mem_cons_self d ds)
    have ih' := ih (fun fs hfs => hpre fs (List.mem_cons_of_mem d hfs))
    show (if d.key = k then some (ds ++ e :: post)
          else (removeFirstKey k (ds ++ e :: post)).map (fun rest => d :: rest))
        = some ((d :: ds) ++ post)
    rw [if_neg hd, ih']
    rfl

lemma removeWhileLong_length (c : Nat) (fs : List FileSetting) :
    (removeWhileLong c fs).length = min fs.length c := by
  induction fs with
  | nil => simp [removeWhileLong]
  | cons d ds ih =>
    simp only [removeWhileLong]
    split
    · rw [ih]; simp only [List.length_cons]; omega
    · simp only [List.length_cons]; omega

lemma addTimes_length (n : Nat) (m : Module) :
    (addTimes n m).file_settings.length = m.file_settings.length + n := by
  induction n generalizing m with
  | zero => rfl
  | succ n ih =>
    show (addTimes n (add_file m)).file_settings.length = _
    rw [ih]
    simp [add_file]
    omega

/-! Theorems settling the claims. -/

/-- Claim C7: the settings are serialized as the directory choice, then the custom
directory, then one (file name, image name) pair per configured file, in
list order; so `settings()` always returns a list of length
`2 + 2 * (number of file entries)`. -/
theorem settings_serialization_layout (m : Module) :
    settings m =
      [Setting.choice m.dir_choice, Setting.text m.custom_directory] ++
        m.file_settings.flatMap
          (fun fs => [Setting.text fs.file_name, Setting.fileImageName fs.image_name]) ∧
    (settings m).length = 2 + 2 * m.file_settings.length :=
  ⟨rfl, settings_length m⟩

/-- Claim C5: `add_file` appends exactly one new entry, with a key fresh with
respect to every existing entry, to the end of the file-settings list,
leaving all existing entries unchanged; and for a key held by exactly one
entry, `remove_file` removes exactly that entry, preserving the relative
order of the remaining entries. -/
theorem add_remove_file_spec (m : Module)
    (hkeys : ∀ fs ∈ m.file_settings, fs.key < m.next_key)
    (k : Nat) (pre : List FileSetting) (e : FileSetting) (post : List FileSetting)
    (hsplit : m.file_settings = pre ++ e :: post)
    (hk : e.key = k)
    (huniq : ∀ fs ∈ pre ++ post, fs.key ≠ k) :
    (add_file m).file_settings =
      m.file_settings ++
        [{ key := m.next_key
           file_name := defaultFileName
           image_name := defaultImageName }] ∧
    (∀ fs ∈ m.file_settings, fs.key ≠ m.next_key) ∧
    remove_file m k = some { m with file_settings := pre ++ post } := by
  refine ⟨rfl, fun fs hfs => Nat.ne_of_lt (hkeys fs hfs), ?_⟩
  unfold remove_file
  rw [hsplit, removeFirstKey_append k pre e post hk
    (fun fs hfs => huniq fs (List.mem_append_left post hfs))]
  rfl

/-- Witness for C5 at a concrete two-entry module. -/
theorem add_remove_file_spec_witness :
    (add_file mA).file_settings =
      mA.file_settings ++
        [{ key := 2
           file_name := defaultFileName
           image_name := defaultImageName }] ∧
    (∀ fs ∈ mA.file_settings, fs.key ≠ 2) ∧
    remove_file mA 0 =
      some { mA with
             file_settings :=
               [] ++ [{ key := 1, file_name := "f2".toList, image_name := "imgB".toList }] } :=
  add_remove_file_spec mA (by decide) 0 []
    { key := 0, file_name := "f1".toList, image_name := "imgA".toList }
    [{ key := 1, file_name := "f2".toList, image_name := "imgB".toList }]
    (by decide) (by decide) (by decide)

/-- Claim C4: `run` only appends to the provider registry: the providers present
before the call are an unchanged order-preserving initial segment of those
present after, and `run` modifies no other part of the image set (nor the
measurements or the frame). -/
theorem run_appends_only_providers (os : OsConfig) (prefs : Prefs) (m : Module)
    (ws : Workspace) :
    (∃ appended, (run os prefs m ws).image_set.providers =
        ws.image_set.providers ++ appended) ∧
    (run os prefs m ws).image_set.rest = ws.image_set.rest ∧
    (run os prefs m ws).measurements = ws.measurements ∧
    (run os prefs m ws).frame = ws.frame :=
  ⟨⟨_, rfl⟩, rfl, rfl, rfl⟩

/-- Claim C2: the providers are registered only on the first pipeline cycle: after
any number `n ≥ 1` of cycles the image set (its provider registry included)
is exactly the one produced by cycle 1, so later cycles add no providers.
The first-cycle-only scheduling is the host engine's, modelled from the spec
in `cycleStep`. -/
theorem providers_stable_after_first_cycle (os : OsConfig) (prefs : Prefs)
    (m : Module) (ws : Workspace) (n : Nat) (h : 1 ≤ n) :
    (runCycles os prefs m n ws).image_set = (runCycles os prefs m 1 ws).image_set := by
  induction n with
  | zero => omega
  | succ n ih =>
    rcases Nat.eq_or_lt_of_le h with h1 | h1
    · rw [← h1]
    · have hn : 1 ≤ n := by omega
      have hne : n + 1 ≠ 1 := by omega
      show (cycleStep os prefs m (n + 1) (runCycles os prefs m n ws)).image_set = _
      rw [cycleStep, if_neg hne]
      exact ih hn

/-- Witness for C2: three cycles leave the image set of cycle 1 unchanged. -/
theorem providers_stable_after_first_cycle_witness :
    (runCycles osA prefsA mA 3 wsA).image_set =
      (runCycles osA prefsA mA 1 wsA).image_set :=
  providers_stable_after_first_cycle osA prefsA mA wsA 3 (by decide)

/-- A workspace whose metadata substitution fixes the two sample patterns
and rewrites everything else. -/
def wsB : Workspace :=
  { measurements :=
      { apply_metadata := fun s =>
          if s = "f1".toList then "f1".toList
          else if s = "f2".toList then "f2".toList
          else "X".toList
        image_set_number := 5 }
    image_set := { providers := [], rest := 9 }
    frame := true }

lemma mem_dictSet (d : PyDict) (k v : PyStr) (kv : PyStr × PyStr)
    (h : kv ∈ dictSet d k v) : kv = (k, v) ∨ kv ∈ d := by
  induction d with
  | nil =>
    simp only [dictSet, List.mem_singleton] at h
    exact Or.inl h
  | cons p rest ih =>
    simp only [dictSet] at h
    split at h
    · rcases List.mem_cons.mp h with h1 | h1
      · exact Or.inl h1
      · exact Or.inr (List.mem_cons_of_mem p h1)
    · rcases List.mem_cons.mp h with h1 | h1
      · exact Or.inr (h1 ▸ List.mem_cons_self p rest)
      · rcases ih h1 with h2 | h2
        · exact Or.inl h2
        · exact Or.inr (List.mem_cons_of_mem p h2)

lemma gfn_mem_aux (am : PyStr → PyStr) :
    ∀ (l : List FileSetting) (acc : PyDict) (kv : PyStr × PyStr),
      kv ∈ l.foldl (fun r fs => dictSet r fs.image_name (am fs.file_name)) acc →
      kv ∈ acc ∨ ∃ fs ∈ l, kv = (fs.image_name, am fs.file_name) := by
  intro l
  induction l with
  | nil => intro acc kv h; exact Or.inl h
  | cons d ds ih =>
    intro acc kv h
    rcases ih (dictSet acc d.image_name (am d.file_name)) kv h with h1 | h1
    · rcases mem_dictSet acc d.image_name (am d.file_name) kv h1 with h2 | h2
      · exact Or.inr ⟨d, List.mem_cons_self d ds, h2⟩
      · exact Or.inl h2
    · rcases h1 with ⟨fs, hfs, hkv⟩
      exact Or.inr ⟨fs, List.mem_cons_of_mem d hfs, hkv⟩

/-- Claim C1: `run` resolves each file pattern through the workspace's
`apply_metadata` and registers, for each entry of the dictionary returned by
`get_file_names`, one provider built from the module's base directory and
the resolved file name, keyed by the configured image name. -/
theorem run_registers_resolved_providers (os : OsConfig) (prefs : Prefs)
    (m : Module) (ws : Workspace) :
    (run os prefs m ws).image_set.providers =
      ws.image_set.providers ++
        (get_file_names m ws).map
          (fun kv =>
            { name := kv.1
              pathname := get_base_directory os prefs m
              filename := kv.2 }) ∧
    ∀ kv ∈ get_file_names m ws, ∃ fs ∈ m.file_settings,
      kv.1 = fs.image_name ∧
      kv.2 = ws.measurements.apply_metadata fs.file_name := by
  refine ⟨rfl, fun kv hkv => ?_⟩
  unfold get_file_names at hkv
  rcases gfn_mem_aux ws.measurements.apply_metadata m.file_settings [] kv hkv with h | h
  · cases h
  · rcases h with ⟨fs, hfs, hkv2⟩
    exact ⟨fs, hfs, by rw [hkv2], by rw [hkv2]⟩

/-- Witness for C1 at a concrete two-entry module and identity metadata. -/
theorem run_registers_resolved_providers_witness :
    (run osA prefsA mA wsA).image_set.providers =
      wsA.image_set.providers ++
        (get_file_names mA wsA).map
          (fun kv =>
            { name := kv.1
              pathname := get_base_directory osA prefsA mA
              filename := kv.2 }) ∧
    ∀ kv ∈ get_file_names mA wsA, ∃ fs ∈ mA.file_settings,
      kv.1 = fs.image_name ∧
      kv.2 = wsA.measurements.apply_metadata fs.file_name :=
  run_registers_resolved_providers osA prefsA mA wsA

/-- Claim C3 counterexample: the folder is not a per-entry setting.  In a module
instance with two file entries there is exactly one directory-choice
setting in the serialized settings, and both providers registered by `run`
carry the same (module-level) folder. -/
theorem folder_shared_counterexample :
    (settings mA).countP
        (fun s => match s with | Setting.choice _ => true | _ => false) = 1 ∧
    (run osA prefsA mA wsA).image_set.providers.map (fun p => p.pathname) =
      ["/base".toList, "/base".toList] := by
  decide

lemma map_pathname_replicate (d : PyDict) (root : PyStr) :
    (d.map (fun kv =>
        ({ name := kv.1, pathname := root, filename := kv.2 } : Provider))).map
      (fun p => p.pathname) = List.replicate d.length root := by
  induction d with
  | nil => rfl
  | cons p rest ih => simp [ih, List.replicate]

lemma drop_append_self (l₁ l₂ : List Provider) : (l₁ ++ l₂).drop l₁.length = l₂ := by
  induction l₁ with
  | nil => rfl
  | cons a l ih => simp [ih]

/-- Claim C3 amended: the folder is configured once per module instance
(directory choice plus custom directory, serialized ahead of all file
entries) and shared by all file entries: every provider registered by one
`run` call carries the same base directory, and each file entry contributes
only its file-name and image-name settings. -/
theorem folder_setting_module_level (os : OsConfig) (prefs : Prefs) (m : Module)
    (ws : Workspace) :
    ((run os prefs m ws).image_set.providers.drop ws.image_set.providers.length).map
        (fun p => p.pathname) =
      List.replicate (get_file_names m ws).length (get_base_directory os prefs m) ∧
    settings m =
      [Setting.choice m.dir_choice, Setting.text m.custom_directory] ++
        m.file_settings.flatMap
          (fun fs => [Setting.text fs.file_name, Setting.fileImageName fs.image_name]) := by
  refine ⟨?_, rfl⟩
  show ((ws.image_set.providers ++
      (get_file_names m ws).map
        (fun kv =>
          ({ name := kv.1
             pathname := get_base_directory os prefs m
             filename := kv.2 } : Provider))).drop ws.image_set.providers.length).map
      (fun p => p.pathname) = _
  rw [drop_append_self, map_pathname_replicate]

lemma gfn_congr_aux (am₁ am₂ : PyStr → PyStr) :
    ∀ (l : List FileSetting) (acc : PyDict),
      (∀ fs ∈ l, am₁ fs.file_name = am₂ fs.file_name) →
      l.foldl (fun r fs => dictSet r fs.image_name (am₁ fs.file_name)) acc =
      l.foldl (fun r fs => dictSet r fs.image_name (am₂ fs.file_name)) acc := by
  intro l
  induction l with
  | nil => intro acc _; rfl
  | cons d ds ih =>
    intro acc h
    show ds.foldl _ (dictSet acc d.image_name (am₁ d.file_name)) = _
    rw [h d (List.mem_cons_self d ds)]
    exact ih _ (fun fs hfs => h fs (List.mem_cons_of_mem d hfs))

/-- Claim C6: `get_file_names` is determined by the values `apply_metadata` takes
on the configured patterns: two workspaces whose metadata substitution
agrees on every configured file pattern yield the same dictionary.  The
module applies no substitution or path interpretation of its own. -/
theorem get_file_names_depends_only_on_patterns (m : Module)
    (ws₁ ws₂ : Workspace)
    (h : ∀ fs ∈ m.file_settings,
      ws₁.measurements.apply_metadata fs.file_name =
        ws₂.measurements.apply_metadata fs.file_name) :
    get_file_names m ws₁ = get_file_names m ws₂ := by
  unfold get_file_names
  exact gfn_congr_aux _ _ m.file_settings [] h

/-- Witness for C6: two genuinely different substitution functions that
agree on the two configured patterns give equal dictionaries. -/
theorem get_file_names_depends_only_on_patterns_witness :
    get_file_names mA wsA = get_file_names mA wsB :=
  get_file_names_depends_only_on_patterns mA wsA wsB (by decide)

lemma prepare_settings_count (m : Module) (sv : List PyStr) :
    (prepare_settings m sv).file_settings.length
      = (Int.fdiv ((sv.length : Int) - 2) 2).toNat := by
  simp only [prepare_settings, addTimes_length, removeWhileLong_length]
  omega

/-- Claim C9: for a setting-value list of even length at least 2,
`prepare_settings` leaves `(length - 2) / 2` file entries, and a subsequent
`settings()` call returns a list of the same length as the input list. -/
theorem prepare_settings_roundtrip (m : Module) (sv : List PyStr)
    (h2 : 2 ≤ sv.length) (heven : sv.length % 2 = 0) :
    (prepare_settings m sv).file_settings.length = (sv.length - 2) / 2 ∧
    (settings (prepare_settings m sv)).length = sv.length := by
  have h1 : ((sv.length : Int) - 2) = ((sv.length - 2 : Nat) : Int) := by omega
  have hfd : ∀ a : Nat, Int.fdiv ((a : Int)) 2 = ((a / 2 : Nat) : Int) := by
    intro a
    cases a with
    | zero => rfl
    | succ n => rfl
  have hc : (Int.fdiv ((sv.length : Int) - 2) 2).toNat = (sv.length - 2) / 2 := by
    rw [h1, hfd]
    omega
  have hl := prepare_settings_count m sv
  rw [hc] at hl
  refine ⟨hl, ?_⟩
  rw [settings_length, hl]
  omega

/-- Witness for C9: a six-value list leaves two file entries and
round-trips to six serialized settings. -/
theorem prepare_settings_roundtrip_witness :
    (prepare_settings mA ["a".toList, "b".toList, "c".toList, "d".toList,
        "e".toList, "f".toList]).file_settings.length = (6 - 2) / 2 ∧
    (settings (prepare_settings mA ["a".toList, "b".toList, "c".toList,
        "d".toList, "e".toList, "f".toList])).length = 6 :=
  prepare_settings_roundtrip mA _ (by decide) (by decide)

lemma startsWithCharSep_same (os : OsConfig) (c s : Char) (rest : PyStr)
    (hsep : s = os.sep ∨ os.altsep = some s) :
    startsWithCharSep os c (c :: s :: rest) = true := by
  obtain ⟨sep, altsep⟩ := os
  rcases hsep with h | h
  · subst h
    cases altsep with
    | none =>
      show (decide ([c, s] = [c, s]) || false) = true
      rw [decide_eq_true rfl]
      rfl
    | some a =>
      show (decide ([c, s] = [c, s]) || decide ([c, s] = [c, a])) = true
      rw [decide_eq_true rfl]
      rfl
  · replace h : altsep = some s := h
    subst h
    show (decide ([c, s] = [c, sep]) || decide ([c, s] = [c, s])) = true
    rw [decide_eq_true (rfl : [c, s] = [c, s]), Bool.or_true]

lemma startsWithCharSep_ne (os : OsConfig) (c c' : Char) (h : c' ≠ c)
    (s : Char) (rest : PyStr) :
    startsWithCharSep os c (c' :: s :: rest) = false := by
  obtain ⟨sep, altsep⟩ := os
  have hne : ∀ x : Char, ¬([c', s] = [c, x]) := by
    intro x he
    injection he with h1 _
    exact h h1
  cases altsep with
  | none =>
    show (decide ([c', s] = [c, sep]) || false) = false
    rw [decide_eq_false (hne sep)]
    rfl
  | some a =>
    show (decide ([c', s] = [c, sep]) || decide ([c', s] = [c, a])) = false
    rw [decide_eq_false (hne sep), decide_eq_false (hne a)]
    rfl

/-- Claim C10: with the Custom folder choice, a custom directory beginning with
`'.'` (resp. `'&'`) followed by a path separator makes
`get_base_directory` join the default input (resp. output) directory with
only the two-character prefix, discarding the remainder of the string; any
other custom value is returned verbatim. -/
theorem get_base_directory_custom_spec (os : OsConfig) (prefs : Prefs)
    (m : Module) (s : Char) (rest : PyStr)
    (hsep : s = os.sep ∨ os.altsep = some s)
    (hc : m.dir_choice = DirChoice.customFolder) :
    (m.custom_directory = '.' :: s :: rest →
        get_base_directory os prefs m =
          path_join os.sep prefs.default_image_directory ['.', s]) ∧
    (m.custom_directory = '&' :: s :: rest →
        get_base_directory os prefs m =
          path_join os.sep prefs.default_output_directory ['&', s]) ∧
    (startsWithCharSep os '.' m.custom_directory = false →
        startsWithCharSep os '&' m.custom_directory = false →
        get_base_directory os prefs m = m.custom_directory) := by
  obtain ⟨dc, cd, fsl, nk⟩ := m
  replace hc : dc = DirChoice.customFolder := hc
  subst hc
  refine ⟨?_, ?_, ?_⟩
  · intro hbase
    replace hbase : cd = '.' :: s :: rest := hbase
    subst hbase
    show (if startsWithCharSep os '.' ('.' :: s :: rest) then
            path_join os.sep prefs.default_image_directory ['.', s]
          else if startsWithCharSep os '&' ('.' :: s :: rest) then
            path_join os.sep prefs.default_output_directory ['.', s]
          else ('.' :: s :: rest))
        = path_join os.sep prefs.default_image_directory ['.', s]
    simp [startsWithCharSep_same os '.' s rest hsep]
  · intro hbase
    replace hbase : cd = '&' :: s :: rest := hbase
    subst hbase
    show (if startsWithCharSep os '.' ('&' :: s :: rest) then
            path_join os.sep prefs.default_image_directory ['&', s]
          else if startsWithCharSep os '&' ('&' :: s :: rest) then
            path_join os.sep prefs.default_output_directory ['&', s]
          else ('&' :: s :: rest))
        = path_join os.sep prefs.default_output_directory ['&', s]
    simp [startsWithCharSep_ne os '.' '&' (by decide) s rest,
      startsWithCharSep_same os '&' s rest hsep]
  · intro hdot hamp
    replace hdot : startsWithCharSep os '.' cd = false := hdot
    replace hamp : startsWithCharSep os '&' cd = false := hamp
    show (if startsWithCharSep os '.' cd then
            path_join os.sep prefs.default_image_directory (cd.take 2)
          else if startsWithCharSep os '&' cd then
            path_join os.sep prefs.default_output_directory (cd.take 2)
          else cd) = cd
    simp [hdot, hamp]

/-- A module with the Custom choice and a `./`-style directory. -/
def mDot : Module :=
  { dir_choice := DirChoice.customFolder
    custom_directory := "./stuff".toList
    file_settings := []
    next_key := 0 }

/-- A module with the Custom choice and a `&/`-style directory. -/
def mAmp : Module :=
  { dir_choice := DirChoice.customFolder
    custom_directory := "&/stuff".toList
    file_settings := []
    next_key := 0 }

/-- A module with the Custom choice and a plain custom directory. -/
def mPlain : Module :=
  { dir_choice := DirChoice.customFolder
    custom_directory := "plain".toList
    file_settings := []
    next_key := 0 }

/-- Witness for C10 on posix separators, in all three cases. -/
theorem get_base_directory_custom_spec_witness :
    get_base_directory osA prefsA mDot =
      path_join osA.sep prefsA.default_image_directory ['.', '/'] ∧
    get_base_directory osA prefsA mAmp =
      path_join osA.sep prefsA.default_output_directory ['&', '/'] ∧
    get_base_directory osA prefsA mPlain = mPlain.custom_directory :=
  ⟨(get_base_directory_custom_spec osA prefsA mDot '/' "stuff".toList
      (Or.inl rfl) rfl).1 (by decide),
   (get_base_directory_custom_spec osA prefsA mAmp '/' "stuff".toList
      (Or.inl rfl) rfl).2.1 (by decide),
   (get_base_directory_custom_spec osA prefsA mPlain '/' []
      (Or.inl rfl) rfl).2.2 (by decide) (by decide)⟩

lemma dictSet_keys (d : PyDict) (k v : PyStr) :
    (dictSet d k v).map Prod.fst =
      if k ∈ d.map Prod.fst then d.map Prod.fst else d.map Prod.fst ++ [k] := by
  induction d with
  | nil => simp [dictSet]
  | cons p rest ih =>
    obtain ⟨a, b⟩ := p
    by_cases hak : a = k
    · subst hak
      simp [dictSet]
    · have hka : ¬ k = a := fun h => hak h.symm
      by_cases hk : k ∈ rest.map Prod.fst
      · simp [dictSet, hak, ih, hk, hka]
      · simp [dictSet, hak, ih, hk, hka]

lemma gfn_keys_aux (am : PyStr → PyStr) :
    ∀ (l : List FileSetting) (acc : PyDict), (acc.map Prod.fst).Nodup →
      ((l.foldl (fun r fs => dictSet r fs.image_name (am fs.file_name)) acc).map
          Prod.fst).Nodup ∧
      ∀ k, k ∈ (l.foldl (fun r fs => dictSet r fs.image_name (am fs.file_name))
            acc).map Prod.fst ↔
          k ∈ acc.map Prod.fst ∨ k ∈ l.map (fun fs => fs.image_name) := by
  intro l
  induction l with
  | nil => intro acc h; exact ⟨h, fun k => by simp⟩
  | cons d ds ih =>
    intro acc h
    have hacc' : ((dictSet acc d.image_name (am d.file_name)).map Prod.fst).Nodup := by
      rw [dictSet_keys]
      split
      next hmem => exact h
      next hmem => simp [List.nodup_append, h, hmem]
    have hmem' : ∀ k, k ∈ (dictSet acc d.image_name (am d.file_name)).map Prod.fst ↔
        k = d.image_name ∨ k ∈ acc.map Prod.fst := by
      intro k
      rw [dictSet_keys]
      split
      next hmem => exact ⟨Or.inr, fun hh => hh.elim (fun he => he ▸ hmem) id⟩
      next hmem => simp [List.mem_append, or_comm]
    obtain ⟨hnd, hm⟩ := ih (dictSet acc d.image_name (am d.file_name)) hacc'
    refine ⟨hnd, fun k => ?_⟩
    rw [List.foldl_cons, hm k, hmem' k]
    simp only [List.map_cons, List.mem_cons]
    tauto

lemma get_file_names_keys (m : Module) (ws : Workspace) :
    ((get_file_names m ws).map Prod.fst).Nodup ∧
    ∀ k, k ∈ (get_file_names m ws).map Prod.fst ↔
      k ∈ m.file_settings.map (fun fs => fs.image_name) := by
  obtain ⟨hnd, hm⟩ :=
    gfn_keys_aux ws.measurements.apply_metadata m.file_settings [] (by simp)
  refine ⟨hnd, fun k => ?_⟩
  unfold get_file_names
  rw [hm k]
  simp

lemma get_file_names_length (m : Module) (ws : Workspace) :
    (get_file_names m ws).length =
      (m.file_settings.map (fun fs => fs.image_name)).dedup.length := by
  obtain ⟨hnd, hm⟩ := get_file_names_keys m ws
  have h2 : ((get_file_names m ws).map Prod.fst).toFinset =
      (m.file_settings.map (fun fs => fs.image_name)).toFinset :=
    Finset.ext fun k => by simp only [List.mem_toFinset]; exact hm k
  calc (get_file_names m ws).length
      = ((get_file_names m ws).map Prod.fst).length := by simp
    _ = ((get_file_names m ws).map Prod.fst).toFinset.card :=
        (List.toFinset_card_of_nodup hnd).symm
    _ = (m.file_settings.map (fun fs => fs.image_name)).toFinset.card := by rw [h2]
    _ = (m.file_settings.map (fun fs => fs.image_name)).dedup.length :=
        List.card_toFinset _

lemma dedup_length_lt {α : Type} [DecidableEq α] (l : List α) (h : ¬ l.Nodup) :
    l.dedup.length < l.length := by
  have hs := List.dedup_sublist l
  rcases Nat.eq_or_lt_of_le hs.length_le with heq | hlt
  · exact absurd (hs.eq_of_length heq ▸ List.nodup_dedup l) h
  · exact hlt

lemma dictFind_dictSet (d : PyDict) (k v k' : PyStr) :
    dictFind (dictSet d k v) k' = if k = k' then some v else dictFind d k' := by
  induction d with
  | nil => simp [dictSet, dictFind]
  | cons p rest ih =>
    obtain ⟨a, b⟩ := p
    by_cases hak : a = k
    · subst hak
      by_cases h1 : a = k'
      · subst h1
        simp [dictSet, dictFind]
      · simp [dictSet, dictFind, h1]
    · by_cases h1 : a = k'
      · subst h1
        have hk : ¬ k = a := fun he => hak he.symm
        simp [dictSet, dictFind, hak, hk, ih]
      · simp [dictSet, dictFind, hak, h1, ih]

lemma gfn_find_aux (am : PyStr → PyStr) (k : PyStr) :
    ∀ (l : List FileSetting) (acc : PyDict),
      dictFind (l.foldl (fun r fs => dictSet r fs.image_name (am fs.file_name)) acc) k
        = (match (l.filter (fun fs => fs.image_name = k)).getLast? with
           | some fs => some (am fs.file_name)
           | none => dictFind acc k) := by
  intro l
  induction l with
  | nil => intro acc; rfl
  | cons d ds ih =>
    intro acc
    rw [List.foldl_cons, ih (dictSet acc d.image_name (am d.file_name))]
    by_cases hd : d.image_name = k
    · have hfc : (d :: ds).filter (fun fs => fs.image_name = k)
          = d :: ds.filter (fun fs => fs.image_name = k) := by
        simp [List.filter_cons, hd]
      rw [hfc]
      cases hfd : ds.filter (fun fs => fs.image_name = k) with
      | nil =>
        rw [dictFind_dictSet]
        simp [hd]
      | cons x xs =>
        rw [List.getLast?_cons_cons]
        rfl
    · have hfc : (d :: ds).filter (fun fs => fs.image_name = k)
          = ds.filter (fun fs => fs.image_name = k) := by
        simp [List.filter_cons, hd]
      rw [hfc]
      cases hfd : ds.filter (fun fs => fs.image_name = k) with
      | nil =>
        rw [dictFind_dictSet]
        simp [hd]
      | cons x xs =>
        rfl

lemma dictFind_get_file_names (m : Module) (ws : Workspace) (k : PyStr) :
    dictFind (get_file_names m ws) k =
      ((m.file_settings.filter (fun fs => fs.image_name = k)).getLast?).map
        (fun fs => ws.measurements.apply_metadata fs.file_name) := by
  unfold get_file_names
  rw [gfn_find_aux ws.measurements.apply_metadata k m.file_settings []]
  cases hfd : (m.file_settings.filter (fun fs => fs.image_name = k)).getLast? with
  | none => rfl
  | some fs => rfl

/-- Claim C8: when two file entries share an image name, `get_file_names` has
fewer entries than there are file entries; the value kept under the shared
image name is the resolution of the last matching file pattern; and `run`
registers one provider per distinct image-name value. -/
theorem duplicate_image_names_collapse (os : OsConfig) (prefs : Prefs)
    (m : Module) (ws : Workspace) (i j : Nat)
    (hi : i < m.file_settings.length) (hj : j < m.file_settings.length)
    (hij : i ≠ j)
    (hname : (m.file_settings.get ⟨i, hi⟩).image_name =
             (m.file_settings.get ⟨j, hj⟩).image_name) :
    (get_file_names m ws).length < m.file_settings.length ∧
    dictFind (get_file_names m ws) (m.file_settings.get ⟨j, hj⟩).image_name =
      ((m.file_settings.filter
          (fun fs => fs.image_name =
            (m.file_settings.get ⟨j, hj⟩).image_name)).getLast?).map
        (fun fs => ws.measurements.apply_metadata fs.file_name) ∧
    (run os prefs m ws).image_set.providers.length =
      ws.image_set.providers.length +
        (m.file_settings.map (fun fs => fs.image_name)).dedup.length := by
  have hnn : ¬ (m.file_settings.map (fun fs => fs.image_name)).Nodup := by
    intro hnd
    have hinj := List.nodup_iff_injective_get.mp hnd
    have hbi : i < (m.file_settings.map (fun fs => fs.image_name)).length := by
      simpa using hi
    have hbj : j < (m.file_settings.map (fun fs => fs.image_name)).length := by
      simpa using hj
    have he : (m.file_settings.map (fun fs => fs.image_name)).get ⟨i, hbi⟩ =
        (m.file_settings.map (fun fs => fs.image_name)).get ⟨j, hbj⟩ := by
      simp only [List.get_eq_getElem, List.getElem_map]
      simp only [List.get_eq_getElem] at hname
      exact hname
    exact hij (congrArg Fin.val (hinj he))
  have hlen := get_file_names_length m ws
  have hlt := dedup_length_lt _ hnn
  have hml : (m.file_settings.map (fun fs => fs.image_name)).length =
      m.file_settings.length := by simp
  refine ⟨by rw [hlen]; omega, dictFind_get_file_names m ws _, ?_⟩
  show (ws.image_set.providers ++
      (get_file_names m ws).map
        (fun kv =>
          ({ name := kv.1
             pathname := get_base_directory os prefs m
             filename := kv.2 } : Provider))).length = _
  rw [List.length_append, List.length_map, hlen]

/-- Witness for C8 at a module whose two entries share the image name. -/
theorem duplicate_image_names_collapse_witness :
    (get_file_names mDup wsA).length < mDup.file_settings.length ∧
    dictFind (get_file_names mDup wsA)
        (mDup.file_settings.get ⟨1, by decide⟩).image_name =
      ((mDup.file_settings.filter
          (fun fs => fs.image_name =
            (mDup.file_settings.get ⟨1, by decide⟩).image_name)).getLast?).map
        (fun fs => wsA.measurements.apply_metadata fs.file_name) ∧
    (run osA prefsA mDup wsA).image_set.providers.length =
      wsA.image_set.providers.length +
        (mDup.file_settings.map (fun fs => fs.image_name)).dedup.length :=
  duplicate_image_names_collapse osA prefsA mDup wsA 0 1 (by decide) (by decide)
    (by decide) (by decide)

end LoadSingleImageMod
